import Mathlib

/-!
Verification of the album-track-finder normalization core.

The repository contains two versions of the same single-page application
(src/unnamed/part_000 and src/src/App.jsx).  Both build a prompt for a
text-generation provider and normalize the returned raw text into a track
list.  We embed the pure core of both versions over List Char:

  * strings are lists of characters;
  * JS String.prototype.trim strips the WhiteSpace and LineTerminator
    character classes, modelled by isWS;
  * JS String.prototype.split on a newline separator is splitLines;
  * the regex ^(\d+)\.\s*(.+)$ is matchNumbered (greedy digits, a
    period, then the capture of group 2; the JS dot excludes line
    terminators while the whitespace class includes them, and the dollar
    anchors only at the end of the input);
  * the regex replace ^\d+\.\s* of App.jsx is stripNumbering.
-/

namespace AlbumTrackFinder

/-- Apostrophe character, used to spell strings containing one. -/
def apos : Char := Char.ofNat 39

/-- JS whitespace as stripped by String.prototype.trim and matched by the
regex class backslash-s: WhiteSpace (tab, VT, FF, space, NBSP, NNBSP,
ZWNBSP, Unicode space separators) plus LineTerminator (LF, CR, LS, PS). -/
def isWS (c : Char) : Bool :=
  c = ' ' || c = Char.ofNat 9 || c = Char.ofNat 10 || c = Char.ofNat 13 ||
  c = Char.ofNat 11 || c = Char.ofNat 12 || c = Char.ofNat 160 ||
  c = Char.ofNat 0x1680 || (0x2000 ≤ c.toNat && c.toNat ≤ 0x200A) ||
  c = Char.ofNat 0x2028 || c = Char.ofNat 0x2029 || c = Char.ofNat 0x202F ||
  c = Char.ofNat 0x205F || c = Char.ofNat 0x3000 || c = Char.ofNat 0xFEFF

/-- Strip leading JS whitespace. -/
def trimLeft (l : List Char) : List Char := l.dropWhile isWS

/-- Strip trailing JS whitespace. -/
def trimRight : List Char → List Char
  | [] => []
  | c :: cs =>
    match trimRight cs with
    | [] => if isWS c then [] else [c]
    | r => c :: r

/-- JS String.prototype.trim: strip whitespace from both ends. -/
def trim (l : List Char) : List Char := trimRight (trimLeft l)

/-- JS String.prototype.split with a newline separator: text.split of a
newline.  The empty string splits to one empty piece, and a trailing
newline yields a trailing empty piece, exactly as in JS. -/
def splitLines : List Char → List (List Char)
  | [] => [[]]
  | c :: cs =>
    if c = Char.ofNat 10 then [] :: splitLines cs
    else
      match splitLines cs with
      | [] => [[c]]
      | l :: ls => (c :: l) :: ls

/-- Decide whether the second list starts with the first. -/
def leadsWith : List Char → List Char → Bool
  | [], _ => true
  | _ :: _, [] => false
  | a :: as, b :: bs => a = b && leadsWith as bs

/-- JS String.prototype.includes: the first list occurs as a contiguous
substring of the second. -/
def containsSub (pat : List Char) : List Char → Bool
  | [] => leadsWith pat []
  | l@(_ :: rest) => leadsWith pat l || containsSub pat rest

/-- Value of a digit string, as parseInt with radix 10 on a string of
decimal digits (leading zeros allowed). -/
def digitsToNat (ds : List Char) : Nat :=
  ds.foldl (fun n c => n * 10 + (c.toNat - 48)) 0

/-- JS LineTerminator characters: LF, CR, LS, PS.  Without the s flag
the regex dot matches any character EXCEPT these, while the class
backslash-s DOES include them; without the m flag the dollar anchors only
at the end of the input. -/
def isLineTerm (c : Char) : Bool :=
  c = Char.ofNat 10 || c = Char.ofNat 13 || c = Char.ofNat 0x2028 || c = Char.ofNat 0x2029

/-- Match of the regex ^(\d+)\.\s*(.+)$ against a line, returning the
digit capture and the capture of group 2.  The digit run is the maximal
one (backtracking it cannot help, as fewer digits put a digit where the
period must match).  After the period, the greedy whitespace star first
consumes the maximal whitespace run; if a non-empty remainder is left,
the dot-plus-dollar accepts it exactly when it contains no line
terminator (the dot excludes them, and any backtracked shorter star
leaves a superset remainder containing the same terminator, so
backtracking cannot rescue a failure).  If the text after the period is
pure whitespace, the star backtracks one character: the match succeeds
with a one-character capture exactly when that last character is
whitespace but not a line terminator.  The source applies this regex only
to trimmed lines, where the pure-whitespace branch is unreachable. -/
def matchNumbered (l : List Char) : Option (List Char × List Char) :=
  if (l.takeWhile Char.isDigit).isEmpty then none
  else
    match l.dropWhile Char.isDigit with
    | c :: r =>
      if c = Char.ofNat 46 then
        match r.dropWhile isWS with
        | [] =>
          match r.getLast? with
          | none => none
          | some d =>
            if isLineTerm d then none else some (l.takeWhile Char.isDigit, [d])
        | x :: xs =>
          if (x :: xs).any isLineTerm then none
          else some (l.takeWhile Char.isDigit, x :: xs)
      else none
    | [] => none

/-- A parsed track: a position and a name.  JS numbers are modelled by
Nat: the position is parseInt of a digit string or a successor index,
both nonnegative. -/
structure Track where
  number : Nat
  name : List Char
deriving DecidableEq, Repr

/-- Outcome of one lookup: a track list, the not-found signal, or a
provider error carrying a human-readable message. -/
inductive LookupOutcome where
  | Found (tracks : List Track) : LookupOutcome
  | NotFound : LookupOutcome
  | ProviderError (msg : List Char) : LookupOutcome
deriving DecidableEq, Repr

/-- The sentinel substring checked first by both versions. -/
def dontHaveInformation : List Char :=
  ("don".data) ++ [apos] ++ ("t have information".data)

/-- The second sentinel substring checked by both versions. -/
def dontKnow : List Char := ("don".data) ++ [apos] ++ ("t know".data)

/-- Body of the per-line map of src/unnamed/part_000: try the
leading-number regex on the trimmed line; on a match the position is the
parsed digits and the name the trimmed capture of group 2, otherwise fall
back to index + 1 and the whole trimmed line. -/
def parseLine (idx : Nat) (line : List Char) : Track :=
  let t := trim line
  match matchNumbered t with
  | some (ds, cap) => { number := digitsToNat ds, name := trim cap }
  | none => { number := idx + 1, name := t }

/-- The response normalizer of src/unnamed/part_000 (fetchTracks, lines
65-90): sentinel classification, then split on newlines, keep lines that
are non-empty after trimming, map each retained line through the
numbered-line parser with its index in the retained sequence, and finally
drop tracks with empty names. -/
def normalize (rawText : List Char) : LookupOutcome :=
  if containsSub dontHaveInformation rawText || containsSub dontKnow rawText then
    .NotFound
  else
    let retained := (splitLines rawText).filter (fun l => !(trim l).isEmpty)
    let tracks :=
      ((List.enumFrom 0 retained).map (fun p => parseLine p.1 p.2)).filter
        (fun t => !t.name.isEmpty)
    .Found tracks

/-- Name of the track produced for a retained line, which does not depend
on the line's index: the fallback branch of parseLine uses the index only
for the number. -/
def partName (line : List Char) : List Char :=
  match matchNumbered (trim line) with
  | some (_, cap) => trim cap
  | none => trim line

/-- Regex replace of ^\d+\.\s* by the empty string, as applied by
src/src/App.jsx to each raw (untrimmed) line: when the line begins with
one or more digits followed by a period, remove them together with the
following whitespace run; otherwise leave the line unchanged. -/
def stripNumbering (l : List Char) : List Char :=
  if (l.takeWhile Char.isDigit).isEmpty then l
  else
    match l.dropWhile Char.isDigit with
    | c :: r => if c = Char.ofNat 46 then r.dropWhile isWS else l
    | [] => l

/-- Name produced for one retained line by src/src/App.jsx: strip the
leading numbering from the raw line, then trim. -/
def appName (l : List Char) : List Char := trim (stripNumbering l)

/-- The response normalizer of src/src/App.jsx (fetchTracks, lines
54-63), which produces only names: the same sentinel classification
(none here encodes the not-found outcome), then split on newlines, keep
lines non-empty after trimming, strip the leading numbering and trim, and
drop names that became empty. -/
def normalizeNames (rawText : List Char) : Option (List (List Char)) :=
  if containsSub dontHaveInformation rawText || containsSub dontKnow rawText then
    none
  else
    some ((((splitLines rawText).filter (fun l => !(trim l).isEmpty)).map appName).filter
      (fun n => !n.isEmpty))

/-- Names carried by a Found outcome; none for the other outcomes. -/
def outcomeNames : LookupOutcome → Option (List (List Char))
  | .Found ts => some (ts.map Track.name)
  | _ => none

/-- The exact fallback sentence mandated by the prompt of
src/unnamed/part_000. -/
def fallbackSentence : List Char :=
  ("I ".data) ++ dontHaveInformation ++ (" about this album.".data)

/-- Prompt segment before the album name (template literal of
src/unnamed/part_000, lines 41-51, reproduced with its embedded newlines
and 16-space continuation indentation). -/
def promptPre : List Char :=
  ("You are a music database assistant.\n                List the official tracklist for the studio album \"").data

/-- Prompt segment between the album and artist names. -/
def promptMid : List Char := ("\" by ").data

/-- Prompt segment between the artist name and the exclusion phrase. -/
def promptReq : List Char :=
  (".\n                Requirements:\n                - Use the original standard release (").data

/-- The standard-edition exclusion phrase of the prompt. -/
def exclusionPhrase : List Char :=
  ("not deluxe, remastered, live, or bonus editions").data

/-- Prompt segment between the exclusion phrase and the fallback
sentence. -/
def promptRest : List Char :=
  (")\n                - Preserve the correct track order\n                - Provide ONLY the track names\n                - One track per line\n                - Number each track starting from 1\n                - Do NOT include any commentary, years, or extra text\n                If you are not confident in the exact official tracklist, reply exactly with:\n                \"").data

/-- The prompt builder of src/unnamed/part_000: the template literal of
lines 41-51 with the album and artist interpolated verbatim. -/
def buildPrompt (artist album : List Char) : List Char :=
  promptPre ++ album ++ promptMid ++ artist ++ promptReq ++ exclusionPhrase ++
    promptRest ++ fallbackSentence ++ ("\"").data

/-- One part of a candidate's content in the provider response body. -/
structure GenPart where
  text : Option (List Char)
deriving DecidableEq, Repr

/-- Content of one candidate in the provider response body; the parts
field may be absent. -/
structure GenContent where
  parts : Option (List GenPart)
deriving DecidableEq, Repr

/-- One candidate in the provider response body; the content field may be
absent. -/
structure GenCandidate where
  content : Option GenContent
deriving DecidableEq, Repr

/-- Parsed JSON body of a success response; the candidates field may be
absent. -/
structure GenData where
  candidates : Option (List GenCandidate)
deriving DecidableEq, Repr

/-- A provider response: failure stands for response.ok being false,
success carries the parsed JSON body. -/
inductive GenResponse where
  | failure : GenResponse
  | success (data : GenData) : GenResponse
deriving DecidableEq, Repr

/-- Evaluation of the JS optional chain with the trailing default of the
empty string.  Indexing the absent candidates field throws a TypeError
(error here); a nullish candidate, content, part, or text short-circuits
the chain to undefined, which the default turns into the empty string; an
absent parts field on a present content throws, because the indexing is
not guarded by optional chaining there. -/
def extractText (d : GenData) : Except Unit (List Char) :=
  match d.candidates with
  | none => .error ()
  | some cs =>
    match cs.head? with
    | none => .ok []
    | some cand =>
      match cand.content with
      | none => .ok []
      | some content =>
        match content.parts with
        | none => .error ()
        | some parts =>
          match parts.head? with
          | none => .ok []
          | some part =>
            match part.text with
            | none => .ok []
            | some t => .ok t

/-- Message of the Error thrown on a non-success response. -/
def fetchFailureMsg : List Char :=
  ("Failed to fetch from Gemini API. Please check your API key.").data

/-- Message standing for the engine-generated TypeError message raised by
the unguarded property accesses of the optional chain (its exact wording
is environment-specific). -/
def typeErrorMsg : List Char := ("TypeError: cannot read properties of undefined").data

/-- Response handling of src/unnamed/part_000 (fetchTracks, lines 58-96):
a non-success response throws, caught as a provider error; a throwing
text extraction is likewise caught; otherwise the extracted text is
normalized. -/
def fetchTracks : GenResponse → LookupOutcome
  | .failure => .ProviderError fetchFailureMsg
  | .success d =>
    match extractText d with
    | .error _ => .ProviderError typeErrorMsg
    | .ok t => normalize t

/-- Discriminator for the provider-error outcome. -/
def isProviderError : LookupOutcome → Bool
  | .ProviderError _ => true
  | _ => false

/-- Whether the last character of the list exists and is not JS
whitespace. -/
def lastNonWS : List Char → Bool
  | [] => false
  | [c] => !isWS c
  | _ :: cs => lastNonWS cs

/-- A line consisting of a digit run immediately followed by a final
period: the one shape on which the two normalizers diverge, since the
regex of part_000 demands a character after the period while the replace
of App.jsx happily erases the whole line. -/
def degenNumbering (l : List Char) : Bool :=
  if (l.takeWhile Char.isDigit).isEmpty then false
  else
    match l.dropWhile Char.isDigit with
    | [c] => c = Char.ofNat 46
    | _ => false

/-- Third track name of the numbered example, spelled with an explicit
apostrophe. -/
def maxwellStr : List Char :=
  ("Maxwell".data) ++ [apos] ++ ("s Silver Hammer".data)

/-- Raw text of the numbered example: three numbered lines. -/
def numberedExample : List Char :=
  ("1. Come Together\n2. Something\n3. ".data) ++ maxwellStr

theorem leadsWith_iff (pat l : List Char) :
    leadsWith pat l = true ↔ ∃ t, l = pat ++ t := by
  induction pat generalizing l with
  | nil => simp [leadsWith]
  | cons a as ih =>
    cases l with
    | nil => simp [leadsWith]
    | cons b bs =>
      simp only [leadsWith, Bool.and_eq_true, decide_eq_true_eq, ih,
        List.cons_append, List.cons.injEq]
      constructor
      · rintro ⟨rfl, t, rfl⟩
        exact ⟨t, rfl, rfl⟩
      · rintro ⟨t, rfl, rfl⟩
        exact ⟨rfl, t, rfl⟩

theorem containsSub_iff (pat l : List Char) :
    containsSub pat l = true ↔ ∃ s t, l = s ++ pat ++ t := by
  induction l with
  | nil =>
    simp only [containsSub, leadsWith_iff]
    constructor
    · rintro ⟨t, ht⟩
      exact ⟨[], t, by simpa using ht⟩
    · rintro ⟨s, t, hst⟩
      refine ⟨t, ?_⟩
      cases s with
      | nil => simpa using hst
      | cons b s' => simp at hst
  | cons a rest ih =>
    simp only [containsSub, Bool.or_eq_true, leadsWith_iff, ih]
    constructor
    · rintro (⟨t, ht⟩ | ⟨s, t, ht⟩)
      · exact ⟨[], t, by simpa using ht⟩
      · exact ⟨a :: s, t, by simp [ht]⟩
    · rintro ⟨s, t, ht⟩
      cases s with
      | nil => exact Or.inl ⟨t, by simpa using ht⟩
      | cons b s' =>
        rw [List.cons_append, List.cons_append] at ht
        injection ht with h1 h2
        subst h1
        exact Or.inr ⟨s', t, h2⟩

theorem containsSub_trans {q p l : List Char} (h1 : containsSub q p = true)
    (h2 : containsSub p l = true) : containsSub q l = true := by
  obtain ⟨s, t, hp⟩ := (containsSub_iff q p).mp h1
  obtain ⟨u, v, hl⟩ := (containsSub_iff p l).mp h2
  refine (containsSub_iff q l).mpr ⟨u ++ s, t ++ v, ?_⟩
  subst hp hl
  simp [List.append_assoc]

theorem containsSub_self_append (pat s t : List Char) :
    containsSub pat (s ++ pat ++ t) = true :=
  (containsSub_iff pat _).mpr ⟨s, t, rfl⟩

theorem normalize_notFound_of_dhi (raw : List Char)
    (h : containsSub dontHaveInformation raw = true) :
    normalize raw = .NotFound := by
  unfold normalize
  rw [h, Bool.true_or]
  rfl

theorem lastNonWS_cons_cons (a b : Char) (l : List Char) :
    lastNonWS (a :: b :: l) = lastNonWS (b :: l) := rfl

theorem lastNonWS_append (l₁ l₂ : List Char) (h : l₂ ≠ []) :
    lastNonWS (l₁ ++ l₂) = lastNonWS l₂ := by
  induction l₁ with
  | nil => rfl
  | cons a as ih =>
    have hx : as ++ l₂ ≠ [] := by
      intro hc
      exact h (List.append_eq_nil.mp hc).2
    cases hy : as ++ l₂ with
    | nil => exact absurd hy hx
    | cons b x => rw [List.cons_append, hy, lastNonWS_cons_cons, ← hy, ih]

theorem dropWhile_ne_nil_of_lastNonWS (l : List Char) (h : lastNonWS l = true) :
    l.dropWhile isWS ≠ [] ∧ lastNonWS (l.dropWhile isWS) = true := by
  induction l with
  | nil => simp [lastNonWS] at h
  | cons a as ih =>
    rw [List.dropWhile_cons]
    by_cases hw : isWS a = true
    · rw [if_pos hw]
      cases as with
      | nil => simp [lastNonWS, hw] at h
      | cons b bs =>
        rw [lastNonWS_cons_cons] at h
        exact ih h
    · rw [if_neg hw]
      exact ⟨by simp, h⟩

theorem trimRight_eq_self (l : List Char) (h : lastNonWS l = true) :
    trimRight l = l := by
  induction l with
  | nil => rfl
  | cons a as ih =>
    cases as with
    | nil =>
      simp only [lastNonWS, Bool.not_eq_true'] at h
      simp [trimRight, h]
    | cons b bs =>
      rw [lastNonWS_cons_cons] at h
      have h2 := ih h
      show (match trimRight (b :: bs) with
            | [] => if isWS a then [] else [a]
            | r => a :: r) = a :: b :: bs
      rw [h2]

theorem lastNonWS_trimRight (l : List Char) (h : trimRight l ≠ []) :
    lastNonWS (trimRight l) = true := by
  induction l with
  | nil => exact absurd rfl h
  | cons a as ih =>
    cases hx : trimRight as with
    | nil =>
      have e : trimRight (a :: as) = if isWS a then [] else [a] := by
        show (match trimRight as with
              | [] => if isWS a then [] else [a]
              | r => a :: r) = _
        rw [hx]
      rw [e] at h ⊢
      by_cases hw : isWS a = true
      · rw [if_pos hw] at h
        exact absurd rfl h
      · rw [if_neg hw]
        simp [lastNonWS, hw]
    | cons b bs =>
      have e : trimRight (a :: as) = a :: b :: bs := by
        show (match trimRight as with
              | [] => if isWS a then [] else [a]
              | r => a :: r) = _
        rw [hx]
      rw [e, lastNonWS_cons_cons, ← hx]
      exact ih (by rw [hx]; simp)

theorem lastNonWS_trim (l : List Char) (h : trim l ≠ []) :
    lastNonWS (trim l) = true :=
  lastNonWS_trimRight _ h

theorem dropWhile_isWS_idem (l : List Char) :
    (l.dropWhile isWS).dropWhile isWS = l.dropWhile isWS := by
  induction l with
  | nil => rfl
  | cons a as ih =>
    rw [List.dropWhile_cons]
    by_cases hw : isWS a = true
    · rw [if_pos hw]
      exact ih
    · rw [if_neg hw, List.dropWhile_cons, if_neg hw]

theorem matchNumbered_eq_some {t ds cap : List Char}
    (h : matchNumbered t = some (ds, cap)) :
    ∃ r, t = ds ++ Char.ofNat 46 :: r ∧
      ((cap = r.dropWhile isWS ∧ cap ≠ []) ∨
       (r.dropWhile isWS = [] ∧ ∃ d, r.getLast? = some d ∧ cap = [d])) := by
  unfold matchNumbered at h
  by_cases he : (t.takeWhile Char.isDigit).isEmpty = true
  · rw [if_pos he] at h
    exact absurd h (by simp)
  · rw [if_neg he] at h
    cases hdr : t.dropWhile Char.isDigit with
    | nil =>
      rw [hdr] at h
      simp at h
    | cons c r =>
      rw [hdr] at h
      simp only [] at h
      by_cases hc : c = Char.ofNat 46
      · rw [if_pos hc] at h
        subst hc
        cases hD : r.dropWhile isWS with
        | nil =>
          rw [hD] at h
          simp only [] at h
          cases hg : r.getLast? with
          | none =>
            rw [hg] at h
            simp at h
          | some d =>
            rw [hg] at h
            simp only [] at h
            by_cases hlt : isLineTerm d = true
            · rw [if_pos hlt] at h
              exact absurd h (by simp)
            · rw [if_neg hlt] at h
              injection h with h'
              injection h' with h1 h2
              refine ⟨r, ?_, Or.inr ⟨hD, d, hg, h2.symm⟩⟩
              rw [← h1, ← hdr]
              exact (List.takeWhile_append_dropWhile Char.isDigit t).symm
        | cons x xs =>
          rw [hD] at h
          simp only [] at h
          by_cases hlt : (x :: xs).any isLineTerm = true
          · rw [if_pos hlt] at h
            exact absurd h (by simp)
          · rw [if_neg hlt] at h
            injection h with h'
            injection h' with h1 h2
            refine ⟨r, ?_, Or.inl ⟨by rw [← h2, hD], by rw [← h2]; simp⟩⟩
            rw [← h1, ← hdr]
            exact (List.takeWhile_append_dropWhile Char.isDigit t).symm
      · rw [if_neg hc] at h
        exact absurd h (by simp)

theorem matchNumbered_trim_some_name {l ds cap : List Char}
    (hl : trim l ≠ []) (h : matchNumbered (trim l) = some (ds, cap)) :
    trim cap ≠ [] := by
  obtain ⟨r, ht, hcase⟩ := matchNumbered_eq_some h
  have hlast : lastNonWS (trim l) = true := lastNonWS_trim l hl
  have hrlast : r ≠ [] → lastNonWS r = true := by
    intro hr
    rw [ht, lastNonWS_append _ _ (by simp)] at hlast
    cases r with
    | nil => exact absurd rfl hr
    | cons x xs => rwa [lastNonWS_cons_cons] at hlast
  rcases hcase with ⟨hcap, hne⟩ | ⟨hD, d, hg, _⟩
  · have hr : r ≠ [] := by
      intro hrnil
      rw [hrnil] at hcap
      exact hne (by rw [hcap]; rfl)
    obtain ⟨hd1, hd2⟩ := dropWhile_ne_nil_of_lastNonWS r (hrlast hr)
    rw [hcap]
    show trimRight ((r.dropWhile isWS).dropWhile isWS) ≠ []
    rw [dropWhile_isWS_idem, trimRight_eq_self _ hd2]
    exact hd1
  · have hr : r ≠ [] := by
      intro hrnil
      rw [hrnil] at hg
      simp at hg
    obtain ⟨hd1, _⟩ := dropWhile_ne_nil_of_lastNonWS r (hrlast hr)
    exact absurd hD hd1

theorem parseLine_name (idx : Nat) (l : List Char) :
    (parseLine idx l).name = partName l := by
  unfold parseLine partName
  cases h : matchNumbered (trim l) with
  | none => simp [h]
  | some p =>
    cases p with
    | mk ds r => simp [h]

theorem partName_ne_nil (l : List Char) (hl : trim l ≠ []) :
    partName l ≠ [] := by
  unfold partName
  cases h : matchNumbered (trim l) with
  | none => exact hl
  | some p =>
    cases p with
    | mk ds r => exact matchNumbered_trim_some_name hl h

theorem bnot_isEmpty_iff (l : List Char) : (!l.isEmpty) = true ↔ l ≠ [] := by
  cases l <;> simp

theorem stripNumbering_of_noDigits {l : List Char}
    (he : (l.takeWhile Char.isDigit).isEmpty = true) : stripNumbering l = l := by
  unfold stripNumbering
  rw [if_pos he]

theorem stripNumbering_of_dropNil {l : List Char}
    (he : ¬ (l.takeWhile Char.isDigit).isEmpty = true)
    (hdr : l.dropWhile Char.isDigit = []) : stripNumbering l = l := by
  unfold stripNumbering
  rw [if_neg he, hdr]

theorem stripNumbering_of_dot {l r : List Char}
    (he : ¬ (l.takeWhile Char.isDigit).isEmpty = true)
    (hdr : l.dropWhile Char.isDigit = Char.ofNat 46 :: r) :
    stripNumbering l = r.dropWhile isWS := by
  unfold stripNumbering
  rw [if_neg he, hdr]
  simp

theorem stripNumbering_of_notDot {l r : List Char} {c : Char}
    (he : ¬ (l.takeWhile Char.isDigit).isEmpty = true)
    (hdr : l.dropWhile Char.isDigit = c :: r) (hc : ¬ c = Char.ofNat 46) :
    stripNumbering l = l := by
  unfold stripNumbering
  rw [if_neg he, hdr]
  simp [hc]

theorem matchNumbered_of_noDigits {l : List Char}
    (he : (l.takeWhile Char.isDigit).isEmpty = true) : matchNumbered l = none := by
  unfold matchNumbered
  rw [if_pos he]

theorem matchNumbered_of_dropNil {l : List Char}
    (he : ¬ (l.takeWhile Char.isDigit).isEmpty = true)
    (hdr : l.dropWhile Char.isDigit = []) : matchNumbered l = none := by
  unfold matchNumbered
  rw [if_neg he, hdr]

theorem any_false_of_sublist {p : Char → Bool} {s l : List Char}
    (hs : List.Sublist s l) (h : l.any p = false) : s.any p = false := by
  cases hp : s.any p with
  | false => rfl
  | true =>
    obtain ⟨a, ha, hpa⟩ := List.any_eq_true.mp hp
    have hl : l.any p = true := List.any_eq_true.mpr ⟨a, hs.subset ha, hpa⟩
    rw [hl] at h
    simp at h

theorem sublist_self_append (l₁ l₂ : List Char) : List.Sublist l₂ (l₁ ++ l₂) := by
  induction l₁ with
  | nil => exact List.Sublist.refl l₂
  | cons a as ih => exact ih.cons a

theorem dropWhile_sublist_self (p : Char → Bool) (l : List Char) :
    List.Sublist (l.dropWhile p) l := by
  induction l with
  | nil => exact List.Sublist.refl []
  | cons a as ih =>
    rw [List.dropWhile_cons]
    by_cases hp : p a = true
    · rw [if_pos hp]
      exact ih.cons a
    · rw [if_neg hp]

theorem matchNumbered_of_dot {l r : List Char}
    (he : ¬ (l.takeWhile Char.isDigit).isEmpty = true)
    (hdr : l.dropWhile Char.isDigit = Char.ofNat 46 :: r)
    (hD : r.dropWhile isWS ≠ [])
    (hLT : (r.dropWhile isWS).any isLineTerm = false) :
    matchNumbered l = some (l.takeWhile Char.isDigit, r.dropWhile isWS) := by
  unfold matchNumbered
  rw [if_neg he, hdr]
  cases hDw : r.dropWhile isWS with
  | nil => exact absurd hDw hD
  | cons x xs =>
    rw [hDw] at hLT
    simp [hDw, hLT]

theorem matchNumbered_of_dotNil {l : List Char}
    (he : ¬ (l.takeWhile Char.isDigit).isEmpty = true)
    (hdr : l.dropWhile Char.isDigit = [Char.ofNat 46]) :
    matchNumbered l = none := by
  unfold matchNumbered
  rw [if_neg he, hdr]
  simp

theorem matchNumbered_of_notDot {l r : List Char} {c : Char}
    (he : ¬ (l.takeWhile Char.isDigit).isEmpty = true)
    (hdr : l.dropWhile Char.isDigit = c :: r) (hc : ¬ c = Char.ofNat 46) :
    matchNumbered l = none := by
  unfold matchNumbered
  rw [if_neg he, hdr]
  simp [hc]

theorem degenNumbering_of_dotNil {l : List Char}
    (he : ¬ (l.takeWhile Char.isDigit).isEmpty = true)
    (hdr : l.dropWhile Char.isDigit = [Char.ofNat 46]) :
    degenNumbering l = true := by
  unfold degenNumbering
  rw [if_neg he, hdr]
  simp

theorem partName_of_none {l : List Char} (h : matchNumbered (trim l) = none) :
    partName l = trim l := by
  unfold partName
  rw [h]

theorem partName_of_some {l ds cap : List Char}
    (h : matchNumbered (trim l) = some (ds, cap)) :
    partName l = trim cap := by
  unfold partName
  rw [h]

theorem appName_eq_partName (l : List Char) (h1 : trim l = l)
    (h2 : degenNumbering l = false) (h3 : l.any isLineTerm = false) :
    appName l = partName l := by
  by_cases he : (l.takeWhile Char.isDigit).isEmpty = true
  · rw [appName, stripNumbering_of_noDigits he, h1,
      partName_of_none (by rw [h1]; exact matchNumbered_of_noDigits he)]
    exact h1.symm
  · cases hdr : l.dropWhile Char.isDigit with
    | nil =>
      rw [appName, stripNumbering_of_dropNil he hdr, h1,
        partName_of_none (by rw [h1]; exact matchNumbered_of_dropNil he hdr)]
      exact h1.symm
    | cons c r =>
      by_cases hc : c = Char.ofNat 46
      · subst hc
        cases r with
        | nil => exact absurd (degenNumbering_of_dotNil he hdr) (by rw [h2]; simp)
        | cons x xs =>
          have hlne : l ≠ [] := by
            intro hnil
            rw [hnil] at hdr
            simp at hdr
          have hlast : lastNonWS l = true := by
            have hx := lastNonWS_trim l (by rw [h1]; exact hlne)
            rwa [h1] at hx
          have ht : l.takeWhile Char.isDigit ++ Char.ofNat 46 :: x :: xs = l := by
            rw [← hdr]
            exact List.takeWhile_append_dropWhile Char.isDigit l
          have hrlast : lastNonWS (x :: xs) = true := by
            rw [← ht, lastNonWS_append _ _ (by simp), lastNonWS_cons_cons] at hlast
            exact hlast
          obtain ⟨hDne, _⟩ := dropWhile_ne_nil_of_lastNonWS (x :: xs) hrlast
          have hsub : List.Sublist ((x :: xs).dropWhile isWS) l := by
            refine List.Sublist.trans (dropWhile_sublist_self isWS (x :: xs)) ?_
            refine List.Sublist.trans (List.Sublist.cons (Char.ofNat 46) (List.Sublist.refl _)) ?_
            rw [← ht]
            exact sublist_self_append _ _
          have hDLT : ((x :: xs).dropWhile isWS).any isLineTerm = false :=
            any_false_of_sublist hsub h3
          rw [appName, stripNumbering_of_dot he hdr,
            partName_of_some (by rw [h1]; exact matchNumbered_of_dot he hdr hDne hDLT)]
      · rw [appName, stripNumbering_of_notDot he hdr hc, h1,
          partName_of_none (by rw [h1]; exact matchNumbered_of_notDot he hdr hc)]
        exact h1.symm

theorem part_names_eq (n : Nat) (ls : List (List Char))
    (h : ∀ l ∈ ls, trim l ≠ []) :
    (((List.enumFrom n ls).map (fun p => parseLine p.1 p.2)).filter
        (fun t => !t.name.isEmpty)).map Track.name = ls.map partName := by
  induction ls generalizing n with
  | nil => rfl
  | cons l ls ih =>
    have hl : trim l ≠ [] := h l (by simp)
    have hrest : ∀ x ∈ ls, trim x ≠ [] := fun x hx => h x (by simp [hx])
    have hne : (!(partName l).isEmpty) = true := (bnot_isEmpty_iff _).mpr (partName_ne_nil l hl)
    show ((((n, l) :: List.enumFrom (n + 1) ls).map (fun p => parseLine p.1 p.2)).filter
        (fun t => !t.name.isEmpty)).map Track.name = partName l :: ls.map partName
    rw [List.map_cons, List.filter_cons]
    simp only [parseLine_name]
    rw [if_pos hne, List.map_cons, parseLine_name, ih (n + 1) hrest]

theorem app_names_eq (ls : List (List Char))
    (h : ∀ l ∈ ls, trim l = l ∧ degenNumbering l = false ∧ l.any isLineTerm = false) :
    ((ls.filter (fun l => !(trim l).isEmpty)).map appName).filter (fun n => !n.isEmpty) =
      (ls.filter (fun l => !(trim l).isEmpty)).map partName := by
  induction ls with
  | nil => rfl
  | cons l ls ih =>
    obtain ⟨h1, h2, h3⟩ := h l (by simp)
    have hrest : ∀ x ∈ ls, trim x = x ∧ degenNumbering x = false ∧ x.any isLineTerm = false :=
      fun x hx => h x (by simp [hx])
    rw [List.filter_cons]
    by_cases hk : (!(trim l).isEmpty) = true
    · rw [if_pos hk, List.map_cons, List.filter_cons, List.map_cons,
        appName_eq_partName l h1 h2 h3]
      have hne : (!(partName l).isEmpty) = true :=
        (bnot_isEmpty_iff _).mpr (partName_ne_nil l ((bnot_isEmpty_iff _).mp hk))
      rw [if_pos hne, ih hrest]
    · rw [if_neg hk]
      exact ih hrest

theorem normalizeNames_eq_outcomeNames (raw : List Char)
    (h : ∀ l ∈ splitLines raw, trim l = l ∧ degenNumbering l = false ∧
      l.any isLineTerm = false) :
    normalizeNames raw = outcomeNames (normalize raw) := by
  have hmem : ∀ l ∈ (splitLines raw).filter (fun l => !(trim l).isEmpty), trim l ≠ [] := by
    intro l hl
    exact (bnot_isEmpty_iff _).mp (List.mem_filter.mp hl).2
  unfold normalizeNames normalize
  by_cases hs : (containsSub dontHaveInformation raw || containsSub dontKnow raw) = true
  · rw [if_pos hs, if_pos hs]
    rfl
  · rw [if_neg hs, if_neg hs]
    simp only [outcomeNames]
    rw [app_names_eq (splitLines raw) h, part_names_eq 0 _ hmem]

theorem normalize_found_names {raw : List Char} {ts : List Track}
    (h : normalize raw = .Found ts) : ∀ tr ∈ ts, tr.name ≠ [] := by
  unfold normalize at h
  by_cases hs : (containsSub dontHaveInformation raw || containsSub dontKnow raw) = true
  · rw [if_pos hs] at h
    exact absurd h (by simp)
  · rw [if_neg hs] at h
    simp only [LookupOutcome.Found.injEq] at h
    subst h
    intro tr htr
    exact (bnot_isEmpty_iff _).mp (List.mem_filter.mp htr).2

theorem takeWhile_digits_dot (ds r : List Char) (h : ds.all Char.isDigit = true) :
    (ds ++ Char.ofNat 46 :: r).takeWhile Char.isDigit = ds ∧
    (ds ++ Char.ofNat 46 :: r).dropWhile Char.isDigit = Char.ofNat 46 :: r := by
  have hdot : Char.isDigit (Char.ofNat 46) = false := by decide
  induction ds with
  | nil => simp [List.takeWhile_cons, List.dropWhile_cons, hdot]
  | cons d ds ih =>
    simp only [List.all_cons, Bool.and_eq_true] at h
    obtain ⟨hd1, hd2⟩ := h
    obtain ⟨ih1, ih2⟩ := ih hd2
    constructor
    · rw [List.cons_append, List.takeWhile_cons, hd1]
      simp [ih1]
    · rw [List.cons_append, List.dropWhile_cons, hd1]
      simp [ih2]

/-- C1 counterexample: on the claim's own input the first line is NOT
dropped.  The trimmed line "1." fails the leading-number regex (nothing
follows the period), so the fallback keeps it as the track {1,"1."},
whose name is non-empty and survives the final filter; the outcome
differs from the claimed Found of the single track 2. -/
theorem C1_counterexample :
    normalize ("1. \n2. Something".data) =
      .Found [⟨1, "1.".data⟩, ⟨2, "Something".data⟩] ∧
    normalize ("1. \n2. Something".data) ≠ .Found [⟨2, "Something".data⟩] := by
  exact ⟨by decide, by decide⟩

/-- C1 (amended): the final filter of Step 4 drops tracks whose name is
empty after trimming, but every track produced from a retained line has a
non-empty name (a numbered match keeps a non-whitespace remainder, and
the fallback keeps the whole trimmed line), so the filter never drops
anything; in particular the input with a bare numbering artifact yields
Found([{1,"1."},{2,"Something"}]), the artifact kept as its own track. -/
theorem C1_amended :
    (∀ idx l, trim l ≠ [] → (parseLine idx l).name ≠ []) ∧
    normalize ("1. \n2. Something".data) =
      .Found [⟨1, "1.".data⟩, ⟨2, "Something".data⟩] := by
  constructor
  · intro idx l hl
    rw [parseLine_name]
    exact partName_ne_nil l hl
  · decide

/-- C1 witness: the amended per-line fact at a concrete retained line. -/
theorem C1_witness :
    trim ("a".data) ≠ [] ∧ (parseLine 0 ("a".data)).name ≠ [] :=
  ⟨by decide, C1_amended.1 0 ("a".data) (by decide)⟩

/-- C2 counterexample: on the input with leading digits parsing to zero,
normalize yields a Found track whose position is 0, which is not a
positive integer. -/
theorem C2_counterexample :
    ∃ ts, normalize ("0. Song".data) = .Found ts ∧ ∃ tr ∈ ts, ¬ 0 < tr.number :=
  ⟨[⟨0, "Song".data⟩], by decide, ⟨0, "Song".data⟩, by decide, by decide⟩

/-- C2 (amended): every track of a Found outcome has a non-empty name,
and fallback positions are always positive; but an explicitly numbered
line contributes its parsed digits verbatim, which can be zero, so
positions are only nonnegative in general. -/
theorem C2_amended :
    (∀ raw ts, normalize raw = .Found ts → ∀ tr ∈ ts, tr.name ≠ []) ∧
    (∀ idx l, matchNumbered (trim l) = none → 0 < (parseLine idx l).number) := by
  constructor
  · intro raw ts h
    exact normalize_found_names h
  · intro idx l h
    simp [parseLine, h]

/-- C2 witness: both amended conjuncts at concrete inputs. -/
theorem C2_witness :
    (∀ tr ∈ [Track.mk 1 ("A".data)], tr.name ≠ []) ∧
    0 < (parseLine 0 ("B".data)).number :=
  ⟨C2_amended.1 ("A".data) [Track.mk 1 ("A".data)] (by decide),
   C2_amended.2 0 ("B".data) (by decide)⟩

/-- C3 counterexample: a success response whose candidates list is empty
has no extractable text, yet the lookup yields Found([]) through the
empty-string default of the optional chain, not a provider error. -/
theorem C3_counterexample :
    fetchTracks (.success ⟨some []⟩) = .Found [] ∧
    isProviderError (fetchTracks (.success ⟨some []⟩)) = false := by
  exact ⟨by decide, by decide⟩

/-- C3 (amended): a non-success response yields ProviderError with the
fetch-failure message; a success response whose optional chain produces
no text yields Found([]) via the empty-string default; only when a
property access throws (candidates absent, or parts absent on a present
content) does a success response yield ProviderError. -/
theorem C3_amended :
    fetchTracks .failure = .ProviderError fetchFailureMsg ∧
    (∀ d, extractText d = .ok [] → fetchTracks (.success d) = .Found []) ∧
    (∀ d, extractText d = .error () → fetchTracks (.success d) = .ProviderError typeErrorMsg) ∧
    extractText ⟨some []⟩ = .ok [] ∧
    extractText ⟨none⟩ = .error () := by
  refine ⟨rfl, ?_, ?_, rfl, rfl⟩
  · intro d h
    show (match extractText d with
          | .error _ => LookupOutcome.ProviderError typeErrorMsg
          | .ok t => normalize t) = .Found []
    rw [h]
    decide
  · intro d h
    show (match extractText d with
          | .error _ => LookupOutcome.ProviderError typeErrorMsg
          | .ok t => normalize t) = .ProviderError typeErrorMsg
    rw [h]

/-- C3 witness: the conditional conjuncts at concrete response bodies. -/
theorem C3_witness :
    fetchTracks (.success ⟨some []⟩) = .Found [] ∧
    fetchTracks (.success ⟨none⟩) = .ProviderError typeErrorMsg :=
  ⟨C3_amended.2.1 ⟨some []⟩ rfl, C3_amended.2.2.1 ⟨none⟩ rfl⟩

/-- C4: a retained line that fails the leading-number pattern produces a
track whose position is one more than its zero-based index among retained
lines (its 1-based output rank) and whose name is the trimmed line; on
the mixed example, position 5 is preserved verbatim and the unnumbered
second line gets its own rank 2. -/
theorem C4_fallback_rank :
    (∀ idx l, matchNumbered (trim l) = none → parseLine idx l = ⟨idx + 1, trim l⟩) ∧
    normalize ("5. Track Five\nTrack Six".data) =
      .Found [⟨5, "Track Five".data⟩, ⟨2, "Track Six".data⟩] := by
  constructor
  · intro idx l h
    simp [parseLine, h]
  · decide

/-- C4 witness: the fallback at the unnumbered line of the example. -/
theorem C4_witness :
    parseLine 1 ("Track Six".data) = ⟨2, trim ("Track Six".data)⟩ :=
  C4_fallback_rank.1 1 ("Track Six".data) (by decide)

/-- C5: a line whose trimmed form is a digit run, a period, and a
remainder that the JS regex accepts (its post-whitespace part is
non-empty and free of line terminators, so the dot-plus-dollar matches it
to the end of the line) produces a track whose position is the parsed
digits and whose name is the trimmed remainder; the three-line numbered
example yields exactly the three tracks in order of appearance. -/
theorem C5_numbered_lines :
    (∀ idx l ds r, trim l = ds ++ Char.ofNat 46 :: r → ds ≠ [] →
      ds.all Char.isDigit = true → r.dropWhile isWS ≠ [] →
      (r.dropWhile isWS).any isLineTerm = false →
      parseLine idx l = ⟨digitsToNat ds, trim (r.dropWhile isWS)⟩) ∧
    normalize numberedExample =
      .Found [⟨1, "Come Together".data⟩, ⟨2, "Something".data⟩, ⟨3, maxwellStr⟩] := by
  constructor
  · intro idx l ds r ht hne hdig hD hLT
    obtain ⟨htk, hdr⟩ := takeWhile_digits_dot ds r hdig
    have he : ¬ ((trim l).takeWhile Char.isDigit).isEmpty = true := by
      rw [ht, htk]
      cases ds with
      | nil => exact absurd rfl hne
      | cons a as => simp
    have hm : matchNumbered (trim l) = some (ds, r.dropWhile isWS) := by
      have := matchNumbered_of_dot he (by rw [ht]; exact hdr) hD hLT
      rw [ht, htk] at this
      rw [ht]
      exact this
    simp [parseLine, hm]
  · decide

/-- C5 witness: the numbered-line fact at a concrete line. -/
theorem C5_witness :
    parseLine 0 ("7. X".data) =
      ⟨digitsToNat ("7".data), trim ((" X".data).dropWhile isWS)⟩ :=
  C5_numbered_lines.1 0 ("7. X".data) ("7".data) (" X".data) (by decide) (by decide)
    (by decide) (by decide) (by decide)

/-- C6: any raw text containing one of the two sentinel substrings is
classified NotFound, and in particular any raw text containing the whole
fallback sentence anywhere is classified NotFound, regardless of
surrounding text. -/
theorem C6_sentinel :
    (∀ raw, (containsSub dontHaveInformation raw || containsSub dontKnow raw) = true →
      normalize raw = .NotFound) ∧
    (∀ raw, containsSub fallbackSentence raw = true → normalize raw = .NotFound) := by
  constructor
  · intro raw h
    unfold normalize
    rw [if_pos h]
  · intro raw h
    have hdhi : containsSub dontHaveInformation fallbackSentence = true :=
      containsSub_self_append dontHaveInformation ("I ".data) (" about this album.".data)
    exact normalize_notFound_of_dhi raw (containsSub_trans hdhi h)

/-- C6 witness: the fallback sentence embedded in surrounding text. -/
theorem C6_witness :
    normalize (("xx ".data) ++ fallbackSentence ++ (" yy".data)) = .NotFound :=
  C6_sentinel.2 _ (containsSub_self_append fallbackSentence ("xx ".data) (" yy".data))

/-- C7: for non-empty inputs, the prompt embeds the artist and the album
verbatim as substrings, contains the standard-edition exclusion phrase
(not deluxe, remastered, live, or bonus editions), and contains the exact
fallback sentence the provider must return verbatim. -/
theorem C7_buildPrompt :
    ∀ artist album : List Char, artist ≠ [] → album ≠ [] →
      containsSub artist (buildPrompt artist album) = true ∧
      containsSub album (buildPrompt artist album) = true ∧
      containsSub exclusionPhrase (buildPrompt artist album) = true ∧
      containsSub fallbackSentence (buildPrompt artist album) = true := by
  intro artist album _ _
  refine ⟨?_, ?_, ?_, ?_⟩
  · exact (containsSub_iff _ _).mpr ⟨promptPre ++ album ++ promptMid,
      promptReq ++ exclusionPhrase ++ promptRest ++ fallbackSentence ++ ("\"").data,
      by simp [buildPrompt, List.append_assoc]⟩
  · exact (containsSub_iff _ _).mpr ⟨promptPre,
      promptMid ++ artist ++ promptReq ++ exclusionPhrase ++ promptRest ++
        fallbackSentence ++ ("\"").data,
      by simp [buildPrompt, List.append_assoc]⟩
  · exact (containsSub_iff _ _).mpr ⟨promptPre ++ album ++ promptMid ++ artist ++ promptReq,
      promptRest ++ fallbackSentence ++ ("\"").data,
      by simp [buildPrompt, List.append_assoc]⟩
  · exact (containsSub_iff _ _).mpr
      ⟨promptPre ++ album ++ promptMid ++ artist ++ promptReq ++ exclusionPhrase ++ promptRest,
       ("\"").data,
       by simp [buildPrompt, List.append_assoc]⟩

/-- C7 witness: all four containments at concrete inputs. -/
theorem C7_witness :
    containsSub ("a".data) (buildPrompt ("a".data) ("b".data)) = true ∧
    containsSub ("b".data) (buildPrompt ("a".data) ("b".data)) = true ∧
    containsSub exclusionPhrase (buildPrompt ("a".data) ("b".data)) = true ∧
    containsSub fallbackSentence (buildPrompt ("a".data) ("b".data)) = true :=
  C7_buildPrompt ("a".data) ("b".data) (by decide) (by decide)

/-- C8: the empty raw text does not trigger the sentinel classification,
no line survives splitting and trimming, and the outcome is the empty
Found list; moreover any non-sentinel raw text with no retained lines
yields Found([]). -/
theorem C8_empty :
    normalize ("".data) = .Found [] ∧
    (∀ raw, (containsSub dontHaveInformation raw || containsSub dontKnow raw) = false →
      (splitLines raw).filter (fun l => !(trim l).isEmpty) = [] →
      normalize raw = .Found []) := by
  constructor
  · decide
  · intro raw hs hf
    unfold normalize
    rw [hs]
    simp only [Bool.false_eq_true, if_false]
    rw [hf]
    rfl

/-- C8 witness: the general empty-result conjunct at a whitespace-only
raw text. -/
theorem C8_witness :
    normalize ("  \n ".data) = .Found [] :=
  C8_empty.2 ("  \n ".data) (by decide) (by decide)

/-- C9 counterexample: the two normalizers disagree on names for the
input whose first line is a bare numbering artifact; part_000 keeps the
name "1." while App.jsx erases the whole line. -/
theorem C9_counterexample :
    normalizeNames ("1. \n2. Something".data) = some ["Something".data] ∧
    outcomeNames (normalize ("1. \n2. Something".data)) =
      some ["1.".data, "Something".data] ∧
    normalizeNames ("1. \n2. Something".data) ≠
      outcomeNames (normalize ("1. \n2. Something".data)) := by
  exact ⟨by decide, by decide, by decide⟩

/-- C9 (amended): the two normalizers are equivalent on names for every
raw text each of whose lines carries no leading or trailing whitespace,
is not a bare numbering artifact (digits followed by a final period), and
contains no line terminator character (a stray CR, LS, or PS mid-line
makes the part_000 regex fail into its fallback while the anchored
replace of App.jsx still strips the numbering prefix); on such inputs the
name sequence of App.jsx equals the name sequence of the tracks of
part_000, sentinel classification included. -/
theorem C9_amended :
    ∀ raw, (∀ l ∈ splitLines raw, trim l = l ∧ degenNumbering l = false ∧
      l.any isLineTerm = false) →
      normalizeNames raw = outcomeNames (normalize raw) :=
  normalizeNames_eq_outcomeNames

/-- C9 witness: the amended equivalence at a concrete two-line input. -/
theorem C9_witness :
    (∀ l ∈ splitLines ("1. A\nB".data), trim l = l ∧ degenNumbering l = false ∧
      l.any isLineTerm = false) ∧
    normalizeNames ("1. A\nB".data) = outcomeNames (normalize ("1. A\nB".data)) :=
  ⟨by decide, C9_amended ("1. A\nB".data) (by decide)⟩

/-- C10: buildPrompt and normalize are pure functions of their inputs:
identical inputs give identical prompts and identical outcomes. -/
theorem C10_deterministic :
    (∀ artist album : List Char, artist ≠ [] → album ≠ [] →
      buildPrompt artist album = buildPrompt artist album) ∧
    (∀ raw, normalize raw = normalize raw) :=
  ⟨fun _ _ _ _ => rfl, fun _ => rfl⟩

/-- C10 witness: determinism at concrete non-empty inputs. -/
theorem C10_witness :
    buildPrompt ("a".data) ("b".data) = buildPrompt ("a".data) ("b".data) :=
  C10_deterministic.1 ("a".data) ("b".data) (by decide) (by decide)

end AlbumTrackFinder
